import Mathlib

/-!
# Verification of `crypto_price_tracker.py`

A shallow embedding, in Lean 4, of the parts of `crypto_price_tracker.py`
that the specification's claims are about:

* the identifier resolver `resolve_input_coins` (symbol → CoinGecko id),
* the per-cycle percent-change computation and classification in
  `print_prices`,
* the formatting helpers `format_pct`,
* the CSV logging functions `ensure_csv_header` / `append_prices_to_csv`
  (the file system is modelled as an optional list of rows),
* the poll-loop body of `main` (one cycle modelled as a pure step
  function on the previous-snapshot state), and
* the startup / interrupt behaviour of `main`.

Prices are modelled as exact rationals (`ℚ`).  Python strings are Lean
`String`s; the ASCII case conversions `str.upper` / `str.lower` are the
character-wise `Char.toUpper` / `Char.toLower` (identical on ASCII, which
is all the symbol table and the concrete scenarios use), and `str.strip`
is modelled as dropping a fixed set of ASCII whitespace characters from
both ends.  Python dicts are association lists in insertion order.
-/

namespace CryptoTracker

/-! ## Python string primitives -/

/-- Python whitespace (`str.strip` with no argument), restricted to the
ASCII whitespace characters: space, tab, newline, carriage return,
vertical tab, form feed. -/
def isPySpace (c : Char) : Bool :=
  decide (c.toNat = 32 ∨ c.toNat = 9 ∨ c.toNat = 10 ∨ c.toNat = 13 ∨
    c.toNat = 11 ∨ c.toNat = 12)

/-- Python `str.strip()` on a list of characters: drop whitespace from the
left, then from the right. -/
def pyStrip (l : List Char) : List Char :=
  ((l.dropWhile isPySpace).reverse.dropWhile isPySpace).reverse

/-- Python `raw.split(",")` on a list of characters.  `"".split(",")`
is `[""]`, and empty pieces between consecutive commas are kept. -/
def splitOnComma : List Char → List (List Char)
  | [] => [[]]
  | c :: cs =>
    if c = ',' then [] :: splitOnComma cs
    else
      match splitOnComma cs with
      | [] => [[c]]
      | h :: t => (c :: h) :: t

/-- Python `s.upper()` (ASCII). -/
def pyUpper (s : String) : String := String.mk (s.data.map Char.toUpper)

/-- Python `s.lower()` (ASCII). -/
def pyLower (s : String) : String := String.mk (s.data.map Char.toLower)

/-- Comma-join at the character level. -/
def joinWithComma : List (List Char) → List Char
  | [] => []
  | [x] => x
  | x :: y :: t => x ++ ',' :: joinWithComma (y :: t)

/-- Comma-join a list of strings (Python `",".join(ids)`). -/
def joinCommas (ids : List String) : String :=
  String.mk (joinWithComma (ids.map String.data))

/-! ## The symbol table and the resolver (source lines 39–91) -/

/-- `SYMBOL_TO_ID`, the fixed symbol → CoinGecko-id table, in source
order.  Python dict, modelled as an association list. -/
def SYMBOL_TO_ID : List (String × String) :=
  [("BTC", "bitcoin"),
   ("ETH", "ethereum"),
   ("LTC", "litecoin"),
   ("DOGE", "dogecoin"),
   ("SOL", "solana"),
   ("ADA", "cardano"),
   ("XRP", "ripple"),
   ("BCH", "bitcoin-cash"),
   ("DOT", "polkadot"),
   ("LINK", "chainlink"),
   ("BNB", "binancecoin"),
   ("USDT", "tether"),
   ("USDC", "usd-coin"),
   ("MATIC", "matic-network"),
   ("AVAX", "avalanche-2"),
   ("SHIB", "shiba-inu"),
   ("TRX", "tron"),
   ("UNI", "uniswap")]

/-- The per-token resolution step of `resolve_input_coins`:
`up = t.upper(); cid = SYMBOL_TO_ID[up] if up in SYMBOL_TO_ID else t.lower()`. -/
def resolveToken (t : String) : String :=
  match List.lookup (pyUpper t) SYMBOL_TO_ID with
  | some cid => cid
  | none => pyLower t

/-- `tokens = [t.strip() for t in raw.split(",") if t.strip()]`
(source line 73). -/
def tokenize (raw : String) : List String :=
  ((splitOnComma raw.data).map (fun l => String.mk (pyStrip l))).filter
    (fun s => s ≠ "")

/-- Python dict assignment `m[k] = v`: update in place if the key exists
(insertion order kept), otherwise append. -/
def dictSet (m : List (String × String)) (k v : String) :
    List (String × String) :=
  if m.any (fun p => p.1 == k) then
    m.map (fun p => if p.1 = k then (k, v) else p)
  else
    m ++ [(k, v)]

/-- The loop body of `resolve_input_coins` (source lines 78–89):
accumulates the deduplicated `resolved` list (the Python `seen` set
always holds exactly the elements of `resolved`) and the
token → id `mapping` dict. -/
def resolveLoop :
    List String → List String → List (String × String) →
      List String × List (String × String)
  | [], resolved, mapping => (resolved, mapping)
  | t :: ts, resolved, mapping =>
    let cid := resolveToken t
    resolveLoop ts (if cid ∈ resolved then resolved else resolved ++ [cid])
      (dictSet mapping t cid)

/-- `resolve_input_coins` (source lines 67–91): returns the ordered
deduplicated identifier list and the original-token → id mapping. -/
def resolve_input_coins (raw : String) :
    List String × List (String × String) :=
  resolveLoop (tokenize raw) [] []

/-- First-seen-order deduplication onto an accumulator; used to state
the compositional characterisation of `resolve_input_coins`. -/
def dedupAppend (acc : List String) : List String → List String
  | [] => acc
  | x :: xs => dedupAppend (if x ∈ acc then acc else acc ++ [x]) xs

/-- A string that resolution maps to itself and that survives the
tokenizer unchanged: nonempty, comma-free, whitespace-trimmed, and a
fixed point of `resolveToken`.  Every identifier `resolve_input_coins`
produces is of this shape, which is what makes re-resolving its output
the identity. -/
def canonicalToken (s : String) : Prop :=
  resolveToken s = s ∧ s ≠ "" ∧ ',' ∉ s.data ∧ pyStrip s.data = s.data

/-! ## Snapshots and the delta engine (source lines 134–170) -/

/-- One fetched response: CoinGecko's JSON, an object per requested coin.
An entry `(c, some p)` is `{c: {"usd": p}}`, an entry `(c, none)` is
`{c: {}}` (no `"usd"` field); an absent key is a coin the source returned
nothing for. -/
abbrev PriceData := List (String × Option ℚ)

/-- The previous-snapshot state `prev_prices : Dict[str, float]`: only
defined prices are stored. -/
abbrev PrevState := List (String × ℚ)

/-- `data.get(coin, {}).get("usd")` (source line 147–148). -/
def getUsd (data : PriceData) (coin : String) : Option ℚ :=
  Option.join (List.lookup coin data)

/-- The `current_prices` dict built by `print_prices`: one entry per
tracked coin, in order (source lines 144–149). -/
def currentPrices (coins : List String) (data : PriceData) :
    List (String × Option ℚ) :=
  coins.map (fun c => (c, getUsd data c))

/-- The percent-change computation of `print_prices` (source lines
151–155): `None` if either price is undefined or the previous price is
zero, else `(price - prev_price) / prev_price`. -/
def pctChange (price prevPrice : Option ℚ) : Option ℚ :=
  match price, prevPrice with
  | some p, some pp => if pp ≠ 0 then some ((p - pp) / pp) else none
  | _, _ => none

/-- The per-identifier delta of a cycle: current snapshot `S` (fetched
data), previous state `P`, identifier `id`. -/
def snapshotDelta (S : PriceData) (P : PrevState) (id : String) : Option ℚ :=
  pctChange (getUsd S id) (List.lookup id P)

/-- The spec's classification tags for a display unit
(missing / no-baseline / up / down / flat). -/
inductive PriceClass where
  | missing
  | noBaseline
  | up
  | down
  | flat
  deriving DecidableEq, Repr

/-- The classification implicit in `print_prices`' colour choice for the
change column (source lines 157–165): `price is None` → missing (yellow
`N/A`), `pct_change is None` → no baseline (yellow), `pct_change > 0` →
up (green), `< 0` → down (red), `== 0` → flat (cyan). -/
def classifyDisplay (price pct : Option ℚ) : PriceClass :=
  match price with
  | none => .missing
  | some _ =>
    match pct with
    | none => .noBaseline
    | some d => if d > 0 then .up else if d < 0 then .down else .flat

/-! ## Change formatting (source lines 127–131) -/

/-- Round a rational to the nearest integer, ties to even — the rounding
used by Python's fixed-point formatting (exact for every value the
concrete scenarios use). -/
def roundHalfEven (q : ℚ) : ℤ :=
  let f := ⌊q⌋
  if q - f < 1 / 2 then f
  else if 1 / 2 < q - f then f + 1
  else if f % 2 = 0 then f else f + 1

/-- Left-pad a string with spaces to width `w` (the effect of a
`%{w}.2f` minimum field width). -/
def padLeft (w : Nat) (s : String) : String :=
  String.mk (List.replicate (w - s.length) ' ') ++ s

/-- Python `f"{x:.2f}"`: sign, integer part, and exactly two fractional
digits. -/
def fmtFixed2 (x : ℚ) : String :=
  let a := (roundHalfEven (x * 100)).natAbs
  (if x < 0 then "-" else "") ++ toString (a / 100) ++ "." ++
    String.mk [Nat.digitChar (a / 10 % 10), Nat.digitChar (a % 10)]

/-- `format_pct` (source lines 127–131): `"   N/A   "` when the delta is
undefined, else `f"{sign}{delta * 100:7.2f}%"` with `sign = "+"` for
non-negative deltas. -/
def format_pct (delta : Option ℚ) : String :=
  match delta with
  | none => "   N/A   "
  | some d => (if d ≥ 0 then "+" else "") ++ padLeft 7 (fmtFixed2 (d * 100)) ++ "%"

/-! ## CSV logging (source lines 102–118)

The file system at the CSV path is `Option (List CsvRow)`: `none` when
the file does not exist, `some rows` otherwise.  A row is written whole
(`csv.writer.writerow` inside a `with open(...)` block), so a file is a
list of complete rows. -/

/-- One CSV row: either the header row or a data row (timestamp plus one
optional price per tracked coin; `none` is written as an empty field). -/
inductive CsvRow where
  | header (cols : List String)
  | data (ts : String) (cells : List (Option ℚ))
  deriving DecidableEq, Repr

/-- The header columns `["timestamp"] + [f"{c}_usd" for c in coins]`
(source line 108). -/
def csvHeaderCols (coins : List String) : List String :=
  "timestamp" :: coins.map (fun c => c ++ "_usd")

/-- The cells of a data row: `[prices.get(c, "") for c in coins]`
(source line 117); a missing key and a stored `None` both become an
empty field. -/
def csvCells (coins : List String) (prices : List (String × Option ℚ)) :
    List (Option ℚ) :=
  coins.map (fun c => Option.join (List.lookup c prices))

/-- `ensure_csv_header` (source lines 102–109): no-op for an empty path
or an existing file; otherwise create the file holding just the header
row. -/
def ensure_csv_header (path : String) (coins : List String)
    (fs : Option (List CsvRow)) : Option (List CsvRow) :=
  if path = "" then fs
  else
    match fs with
    | none => some [.header (csvHeaderCols coins)]
    | some rows => some rows

/-- `append_prices_to_csv` (source lines 112–118): no-op for an empty
path; otherwise append one data row in `"a"` mode (creating the file if
it does not exist, never truncating). -/
def append_prices_to_csv (path : String) (coins : List String)
    (prices : List (String × Option ℚ)) (ts : String)
    (fs : Option (List CsvRow)) : Option (List CsvRow) :=
  if path = "" then fs
  else some (fs.getD [] ++ [.data ts (csvCells coins prices)])

/-! ## The poll loop of `main` (source lines 185–245)

One iteration of the `while True` body is modelled as a pure step
function: the fetch either returns data or raises
(`requests.RequestException` at line 234, any other `Exception` at line
238), and the body maps the previous-snapshot state to a new state plus
the cycle's observable effects (CSV append, warning, sleep-or-break). -/

/-- The configuration `main` derives from its arguments before entering
the loop. `intervalArg` is the raw `--interval` value (any integer);
the loop always sleeps `max 1 intervalArg` (source line 201). -/
structure Config where
  coins : List String
  once : Bool
  noColor : Bool
  intervalArg : ℤ
  csvPath : String

/-- `interval = max(1, args.interval)` (source line 201). -/
def effInterval (cfg : Config) : ℤ := max 1 cfg.intervalArg

/-- What one cycle observes from the fetch: a parsed response, or an
exception (`requests.RequestException`, or any other `Exception`
raised inside the `try` body). -/
inductive CycleEvent where
  | ok (data : PriceData) (ts : String)
  | netError (msg : String)
  | unexpectedError (msg : String)

/-- How the cycle ends: `sleep n` then loop again, or `brk` (the
run-once `break`). -/
inductive LoopControl where
  | sleep (seconds : ℤ)
  | brk
  deriving DecidableEq, Repr

/-- The observable outcome of one loop iteration. -/
structure CycleResult where
  newPrev : PrevState
  control : LoopControl
  csvWrite : Option CsvRow
  warning : Option String
  deriving DecidableEq, Repr

/-- `prev_prices = {k: v for k, v in current_prices.items() if v is not None}`
(source line 231): the current snapshot restricted to defined prices. -/
def filterDefined (current : List (String × Option ℚ)) : PrevState :=
  current.filterMap (fun p => p.2.map (fun v => (p.1, v)))

/-- One iteration of the `while True` body of `main` (source lines
218–241).  On success: print the table, append a CSV row when a path is
configured, `break` in run-once mode (before the previous-state update),
else replace the previous state with the filtered current snapshot and
sleep.  On either exception: print a warning and sleep the same
interval, leaving the previous state and the CSV file untouched. -/
def runCycle (cfg : Config) (prev : PrevState) (ev : CycleEvent) :
    CycleResult :=
  match ev with
  | .ok data ts =>
    let current := currentPrices cfg.coins data
    let row : Option CsvRow :=
      if cfg.csvPath ≠ "" then some (.data ts (csvCells cfg.coins current))
      else none
    if cfg.once then
      { newPrev := prev, control := .brk, csvWrite := row, warning := none }
    else
      { newPrev := filterDefined current
        control := .sleep (effInterval cfg)
        csvWrite := row
        warning := none }
  | .netError m =>
    { newPrev := prev
      control := .sleep (effInterval cfg)
      csvWrite := none
      warning := some ("Network/API error: " ++ m) }
  | .unexpectedError m =>
    { newPrev := prev
      control := .sleep (effInterval cfg)
      csvWrite := none
      warning := some ("Unexpected error: " ++ m) }

/-- `prev_prices = {}` (source line 215): the previous-snapshot state the
loop starts with. -/
def initPrevPrices : PrevState := []

/-! ## Startup and interrupt handling (source lines 185–245) -/

/-- What `main` does after resolving the coin argument (source lines
196–199): exit with status 1 after printing `"No coins specified."`
when no identifiers resolved, otherwise enter the loop with exactly the
resolved list and mapping. -/
inductive StartupResult where
  | exitWith (code : ℕ) (errorReported : Bool)
  | enterLoop (coins : List String) (mapping : List (String × String))
  deriving DecidableEq, Repr

/-- The startup decision of `main`: `if not resolved_coins:
print(...); sys.exit(1)` (source lines 196–199). -/
def mainStartup (coinsArg : String) : StartupResult :=
  let r := resolve_input_coins coinsArg
  if r.1 = [] then .exitWith 1 true else .enterLoop r.1 r.2

/-- The attributes of the `_NoColor` object `main` substitutes for
`colorama.Style` under `--no-color` (source lines 190–193):
`RED = GREEN = CYAN = MAGENTA = YELLOW = ""`.  Note `BRIGHT` is absent. -/
def noColorAttrs : List (String × String) :=
  [("RED", ""), ("GREEN", ""), ("CYAN", ""), ("MAGENTA", ""),
   ("YELLOW", "")]

/-- The style attributes of `colorama.Style` (external library): the
ANSI codes for `BRIGHT`, `DIM`, `NORMAL`, `RESET_ALL`. -/
def coloramaStyleAttrs : List (String × String) :=
  [("BRIGHT", "\x1b[1m"), ("DIM", "\x1b[2m"), ("NORMAL", "\x1b[22m"),
   ("RESET_ALL", "\x1b[0m")]

/-- Python attribute lookup `Style.<attr>` as seen by `main`:
`Style` is `_NoColor()` when `--no-color` was given (source lines
188–193), else `colorama.Style`.  `none` models an `AttributeError`. -/
def styleAttr (noColor : Bool) (attr : String) : Option String :=
  if noColor then List.lookup attr noColorAttrs
  else List.lookup attr coloramaStyleAttrs

/-- How the process ends when the loop is interrupted: a clean
`sys.exit(code)` (with or without the farewell line printed first), or
an uncaught Python exception escaping `main`. -/
inductive InterruptOutcome where
  | exit (code : ℕ) (farewell : Bool)
  | uncaught (exc : String)
  deriving DecidableEq, Repr

/-- The `except KeyboardInterrupt` handler (source lines 243–245):
`print(Style.BRIGHT + "\nExiting (keyboard interrupt). Goodbye!")` then
`sys.exit(0)`.  The attribute access `Style.BRIGHT` is evaluated first;
if it fails, the `AttributeError` escapes before anything is printed. -/
def onKeyboardInterrupt (noColor : Bool) : InterruptOutcome :=
  match styleAttr noColor "BRIGHT" with
  | some _ => .exit 0 true
  | none => .uncaught "AttributeError"

/-! ## General lemmas -/

theorem digitChar_isDigit : ∀ n, n < 10 → (Nat.digitChar n).isDigit := by
  decide

/-- `fmtFixed2` always ends in a decimal point followed by exactly two
digit characters. -/
theorem fmtFixed2_shape (x : ℚ) :
    ∃ pre t o, (fmtFixed2 x).data = pre ++ ['.', t, o] ∧
      t.isDigit ∧ o.isDigit := by
  refine ⟨((if x < 0 then "-" else "") ++
      toString ((roundHalfEven (x * 100)).natAbs / 100)).data,
    Nat.digitChar ((roundHalfEven (x * 100)).natAbs / 10 % 10),
    Nat.digitChar ((roundHalfEven (x * 100)).natAbs % 10), ?_, ?_, ?_⟩
  · simp [fmtFixed2, String.data_append]
  · exact digitChar_isDigit _ (Nat.mod_lt _ (by norm_num))
  · exact digitChar_isDigit _ (Nat.mod_lt _ (by norm_num))

/-- Evaluation of the scenario's change string: a delta of `1/4` renders
as `"+  25.00%"` (the `%7.2f` field pads `25.00` to seven characters). -/
theorem format_pct_quarter : format_pct (some (1 / 4)) = "+  25.00%" := by
  rw [format_pct]
  rw [if_pos (by norm_num : ((1 : ℚ) / 4) ≥ 0)]
  have h : roundHalfEven ((1 / 4 : ℚ) * 100 * 100) = 2500 := by
    rw [roundHalfEven]; norm_num
  rw [fmtFixed2, h]
  rw [if_neg (by norm_num : ¬((1 : ℚ) / 4) * 100 < 0)]
  rfl

/-- An identifier with an undefined current price never survives the
`v is not None` filter, whatever the coin list. -/
theorem lookup_filterDefined_none (coins : List String) (data : PriceData)
    (c : String) (h : getUsd data c = none) :
    List.lookup c (filterDefined (currentPrices coins data)) = none := by
  induction coins with
  | nil => rfl
  | cons a rest ih =>
    by_cases hac : c = a
    · subst hac
      simp only [currentPrices, List.map_cons, filterDefined,
        List.filterMap_cons, h, Option.map_none]
      exact ih
    · simp only [currentPrices, List.map_cons, filterDefined,
        List.filterMap_cons]
      cases hd : getUsd data a with
      | none => exact ih
      | some v =>
        simp only [Option.map_some, List.lookup]
        rw [show (c == a) = false from beq_eq_false_iff_ne.mpr hac]
        exact ih

/-! ### Resolver lemmas

The development below establishes that every identifier produced by
`resolve_input_coins` is a `canonicalToken` — nonempty, comma-free,
whitespace-trimmed and a fixed point of `resolveToken` — and
characterises the resolver's two outputs, which is what claims C5 and
C9 need. -/
theorem char_toNat_ofNat {n : Nat} (h : n < 55296) :
    (Char.ofNat n).toNat = n := by
  rw [Char.ofNat, dif_pos (Or.inl h)]
  simp [Char.ofNatAux, Char.toNat]
  rfl

theorem char_eq_of_toNat {c d : Char} (h : c.toNat = d.toNat) : c = d := by
  apply Char.ext
  exact UInt32.toNat.inj h

theorem toLower_toNat (c : Char) :
    (Char.toLower c).toNat =
      if 65 ≤ c.toNat ∧ c.toNat ≤ 90 then c.toNat + 32 else c.toNat := by
  rw [Char.toLower]
  split
  · next hc => exact char_toNat_ofNat (by omega)
  · next hc => rfl

theorem toUpper_toNat (c : Char) :
    (Char.toUpper c).toNat =
      if 97 ≤ c.toNat ∧ c.toNat ≤ 122 then c.toNat - 32 else c.toNat := by
  rw [Char.toUpper]
  split
  · next hc => exact char_toNat_ofNat (by omega)
  · next hc => rfl

theorem toUpper_toLower (c : Char) :
    c.toLower.toUpper = c.toUpper := by
  apply char_eq_of_toNat
  rw [toUpper_toNat, toUpper_toNat, toLower_toNat]
  split_ifs <;> omega

theorem toLower_toLower (c : Char) :
    c.toLower.toLower = c.toLower := by
  apply char_eq_of_toNat
  rw [toLower_toNat, toLower_toNat]
  split_ifs <;> omega

theorem isPySpace_toLower (c : Char) :
    isPySpace c.toLower = isPySpace c := by
  rw [isPySpace, isPySpace, toLower_toNat]
  split_ifs with hc
  · exact decide_eq_decide.mpr (by omega)
  · rfl

theorem toLower_comma {c : Char} (h : c.toLower = ',') : c = ',' := by
  apply char_eq_of_toNat
  have := congrArg Char.toNat h
  rw [toLower_toNat] at this
  have hcomma : (',' : Char).toNat = 44 := by decide
  rw [hcomma] at this ⊢
  split_ifs at this <;> omega


theorem dropWhile_head_false {p : Char → Bool} :
    ∀ {l : List Char} {c : Char},
      (List.dropWhile p l).head? = some c → p c = false
  | [], c, h => by simp [List.dropWhile] at h
  | a :: l, c, h => by
    rw [List.dropWhile_cons] at h
    by_cases ha : p a
    · rw [if_pos ha] at h
      exact dropWhile_head_false h
    · rw [if_neg ha] at h
      simp at h
      subst h
      exact Bool.eq_false_iff.mpr ha

theorem dropWhile_eq_self_of_head {p : Char → Bool} {l : List Char}
    (h : ∀ c, l.head? = some c → p c = false) :
    List.dropWhile p l = l := by
  cases l with
  | nil => rfl
  | cons a l => rw [List.dropWhile_cons, if_neg (by simp [h a rfl])]

theorem dropWhile_idem {p : Char → Bool} {l : List Char} :
    List.dropWhile p (List.dropWhile p l) = List.dropWhile p l :=
  dropWhile_eq_self_of_head (fun _ h => dropWhile_head_false h)

theorem prefix_head {b a : List Char} (h : b <+: a) {c : Char}
    (hc : b.head? = some c) : a.head? = some c := by
  obtain ⟨t, rfl⟩ := h
  cases b with
  | nil => simp at hc
  | cons x b => simpa using hc

theorem pyStrip_stripped (l : List Char) :
    pyStrip (pyStrip l) = pyStrip l := by
  set a := l.dropWhile isPySpace with ha
  set s := a.reverse.dropWhile isPySpace with hs
  have hba : s.reverse <+: a := by
    have h := List.reverse_prefix.mpr
      (show s <:+ a.reverse from hs ▸ List.dropWhile_suffix _)
    simpa using h
  have h1 : List.dropWhile isPySpace s.reverse = s.reverse := by
    apply dropWhile_eq_self_of_head
    intro c hc
    have hac : a.head? = some c := prefix_head hba hc
    exact dropWhile_head_false (ha ▸ hac)
  show ((s.reverse.dropWhile isPySpace).reverse.dropWhile
      isPySpace).reverse = s.reverse
  rw [h1, List.reverse_reverse]
  rw [hs, dropWhile_idem]

theorem pyStrip_map_toLower (l : List Char) :
    pyStrip (l.map Char.toLower) = (pyStrip l).map Char.toLower := by
  have hcomp : ∀ m : List Char,
      List.dropWhile isPySpace (m.map Char.toLower) =
        (List.dropWhile isPySpace m).map Char.toLower := by
    intro m
    rw [List.dropWhile_map]
    have : (isPySpace ∘ Char.toLower) = isPySpace := by
      funext c
      exact isPySpace_toLower c
    rw [this]
  rw [pyStrip, pyStrip, hcomp, ← List.map_reverse, hcomp,
    List.map_reverse]

theorem mem_pyStrip {c : Char} {l : List Char} (h : c ∈ pyStrip l) :
    c ∈ l := by
  rw [pyStrip] at h
  rw [List.mem_reverse] at h
  have h2 := (List.dropWhile_sublist isPySpace).mem h
  rw [List.mem_reverse] at h2
  exact (List.dropWhile_sublist isPySpace).mem h2

theorem splitOnComma_ne_nil (l : List Char) : splitOnComma l ≠ [] := by
  cases l with
  | nil => simp [splitOnComma]
  | cons c cs =>
    rw [splitOnComma]
    split
    · simp
    · split <;> simp

theorem mem_splitOnComma_no_comma :
    ∀ {l : List Char} {x : List Char}, x ∈ splitOnComma l → ',' ∉ x
  | [], x, h => by
    rw [splitOnComma] at h
    simp at h
    simp [h]
  | c :: cs, x, h => by
    rw [splitOnComma] at h
    by_cases hc : c = ','
    · rw [if_pos hc] at h
      rcases List.mem_cons.mp h with h | h
      · simp [h]
      · exact mem_splitOnComma_no_comma h
    · rw [if_neg hc] at h
      rcases he : splitOnComma cs with _ | ⟨hd, tl⟩
      · exact absurd he (splitOnComma_ne_nil cs)
      · rw [he] at h
        rcases List.mem_cons.mp h with h | h
        · subst h
          intro hmem
          rcases List.mem_cons.mp hmem with h | h
          · exact hc h.symm
          · exact mem_splitOnComma_no_comma (he ▸ List.mem_cons_self hd tl) h
        · exact mem_splitOnComma_no_comma (he ▸ List.mem_cons_of_mem hd h)

theorem splitOnComma_no_comma {a : List Char} (h : ',' ∉ a) :
    splitOnComma a = [a] := by
  induction a with
  | nil => rfl
  | cons c cs ih =>
    rw [splitOnComma]
    rw [if_neg (fun hc => h (List.mem_cons.mpr (Or.inl hc.symm)))]
    rw [ih (fun hm => h (List.mem_cons_of_mem c hm))]

theorem splitOnComma_append_comma {a : List Char} (r : List Char)
    (h : ',' ∉ a) :
    splitOnComma (a ++ ',' :: r) = a :: splitOnComma r := by
  induction a with
  | nil =>
    rw [List.nil_append, splitOnComma, if_pos rfl]
  | cons c cs ih =>
    rw [List.cons_append, splitOnComma]
    rw [if_neg (fun hc => h (List.mem_cons.mpr (Or.inl hc.symm)))]
    rw [ih (fun hm => h (List.mem_cons_of_mem c hm))]

theorem splitOnComma_join :
    ∀ {x : List Char} {xs : List (List Char)},
      (',' ∉ x) → (∀ y ∈ xs, ',' ∉ y) →
      splitOnComma (joinWithComma (x :: xs)) = x :: xs
  | x, [], hx, _ => by
    rw [joinWithComma, splitOnComma_no_comma hx]
  | x, y :: t, hx, hxs => by
    rw [joinWithComma, splitOnComma_append_comma _ hx]
    rw [splitOnComma_join (hxs y (List.mem_cons_self y t))
      (fun z hz => hxs z (List.mem_cons_of_mem y hz))]

theorem lookup_mem {k v : String} :
    ∀ {m : List (String × String)}, List.lookup k m = some v →
      (k, v) ∈ m
  | [], h => by simp [List.lookup] at h
  | (a, b) :: m, h => by
    rw [List.lookup] at h
    by_cases hk : k = a
    · rw [show (k == a) = true from beq_iff_eq.mpr hk] at h
      simp at h
      simp [hk, h]
    · rw [show (k == a) = false from beq_eq_false_iff_ne.mpr hk] at h
      exact List.mem_cons_of_mem _ (lookup_mem h)

theorem lookup_eq_of_good {f : String → String} :
    ∀ {m : List (String × String)}, (∀ p ∈ m, p.2 = f p.1) →
      ∀ {k : String}, k ∈ m.map Prod.fst → List.lookup k m = some (f k)
  | [], _, k, hk => by simp at hk
  | (a, b) :: m, hg, k, hk => by
    by_cases hka : k = a
    · rw [List.lookup, show (k == a) = true from beq_iff_eq.mpr hka]
      have hab := hg (a, b) (List.mem_cons_self _ _)
      simp only at hab
      rw [hab, hka]
    · rw [List.lookup, show (k == a) = false from
        beq_eq_false_iff_ne.mpr hka]
      refine lookup_eq_of_good
        (fun p hp => hg p (List.mem_cons_of_mem _ hp)) ?_
      simp only [List.map_cons, List.mem_cons] at hk
      exact hk.resolve_left hka

theorem pyUpper_pyLower (t : String) : pyUpper (pyLower t) = pyUpper t := by
  rw [pyUpper, pyLower, pyUpper]
  congr 1
  show (t.data.map Char.toLower).map Char.toUpper = t.data.map Char.toUpper
  rw [List.map_map]
  exact List.map_congr_left (fun c _ => toUpper_toLower c)

theorem pyLower_pyLower (t : String) : pyLower (pyLower t) = pyLower t := by
  rw [pyLower, pyLower]
  congr 1
  show (t.data.map Char.toLower).map Char.toLower = t.data.map Char.toLower
  rw [List.map_map]
  exact List.map_congr_left (fun c _ => toLower_toLower c)

theorem table_values_canonical :
    ∀ p ∈ SYMBOL_TO_ID, canonicalToken p.2 := by
  simp only [canonicalToken]
  decide

theorem mem_tokenize {raw : String} {t : String} (h : t ∈ tokenize raw) :
    ∃ piece ∈ splitOnComma raw.data,
      t = String.mk (pyStrip piece) ∧ t ≠ "" := by
  rw [tokenize] at h
  have hmem := List.mem_of_mem_filter h
  have hne : t ≠ "" := by
    have := List.of_mem_filter h
    simpa using this
  rcases List.mem_map.mp hmem with ⟨piece, hp, rfl⟩
  exact ⟨piece, hp, rfl, hne⟩

theorem resolveToken_canonical {raw : String} {t : String}
    (ht : t ∈ tokenize raw) : canonicalToken (resolveToken t) := by
  rcases mem_tokenize ht with ⟨piece, hpiece, hts, hne⟩
  have htdata : t.data = pyStrip piece := by rw [hts]
  have hcommafree : ',' ∉ t.data := by
    rw [htdata]
    intro hmem
    exact mem_splitOnComma_no_comma hpiece (mem_pyStrip hmem)
  rcases hlook : List.lookup (pyUpper t) SYMBOL_TO_ID with _ | cid
  · -- fallback: cid = t.lower()
    have hres : resolveToken t = pyLower t := by
      rw [resolveToken, hlook]
    rw [hres]
    refine ⟨?_, ?_, ?_, ?_⟩
    · rw [resolveToken, pyUpper_pyLower, hlook, pyLower_pyLower]
    · intro hempty
      apply hne
      have h2 : t.data.map Char.toLower = [] := by
        have : (pyLower t).data = [] := by rw [hempty]
        rwa [pyLower] at this
      have h3 : t.data = [] := by simpa using h2
      calc t = String.mk t.data := rfl
        _ = "" := by rw [h3]
    · rw [pyLower]
      intro hmem
      simp at hmem
      rcases hmem with ⟨c, hc, hcl⟩
      exact hcommafree ((toLower_comma hcl) ▸ hc)
    · show pyStrip (pyLower t).data = (pyLower t).data
      have hld : (pyLower t).data = t.data.map Char.toLower := by
        rw [pyLower]
      rw [hld, pyStrip_map_toLower, htdata, pyStrip_stripped]
  · -- table hit
    have hres : resolveToken t = cid := by
      rw [resolveToken, hlook]
    rw [hres]
    exact table_values_canonical _ (lookup_mem hlook)

theorem resolveLoop_fst :
    ∀ (ts : List String) (res : List String)
      (m : List (String × String)),
      (resolveLoop ts res m).1 = dedupAppend res (ts.map resolveToken)
  | [], res, m => rfl
  | t :: ts, res, m => by
    rw [resolveLoop, List.map_cons, dedupAppend]
    exact resolveLoop_fst ts _ _

theorem dedupAppend_nodup :
    ∀ (l : List String) {acc : List String}, acc.Nodup →
      (dedupAppend acc l).Nodup
  | [], acc, h => h
  | x :: xs, acc, h => by
    rw [dedupAppend]
    by_cases hx : x ∈ acc
    · rw [if_pos hx]
      exact dedupAppend_nodup xs h
    · rw [if_neg hx]
      refine dedupAppend_nodup xs ?_
      rw [List.nodup_append]
      exact ⟨h, List.nodup_singleton x,
        fun a ha hax => hx (by simpa [List.mem_singleton.mp hax] using ha)⟩

theorem mem_dedupAppend :
    ∀ {l : List String} {acc : List String} {x : String},
      x ∈ dedupAppend acc l → x ∈ acc ∨ x ∈ l
  | [], acc, x, h => Or.inl h
  | y :: ys, acc, x, h => by
    rw [dedupAppend] at h
    by_cases hy : y ∈ acc
    · rw [if_pos hy] at h
      rcases mem_dedupAppend h with h | h
      · exact Or.inl h
      · exact Or.inr (List.mem_cons_of_mem y h)
    · rw [if_neg hy] at h
      rcases mem_dedupAppend h with h | h
      · rcases List.mem_append.mp h with h | h
        · exact Or.inl h
        · exact Or.inr (by simp [List.mem_singleton.mp h])
      · exact Or.inr (List.mem_cons_of_mem y h)

theorem dedupAppend_of_disjoint :
    ∀ {l : List String} {acc : List String}, l.Nodup →
      (∀ x ∈ l, x ∉ acc) → dedupAppend acc l = acc ++ l
  | [], acc, _, _ => by rw [dedupAppend, List.append_nil]
  | x :: xs, acc, hnd, hdisj => by
    rw [dedupAppend, if_neg (hdisj x (List.mem_cons_self x xs))]
    rw [dedupAppend_of_disjoint (List.Nodup.of_cons hnd) ?_]
    · rw [List.append_assoc]
      rfl
    · intro y hy
      intro hmem
      rcases List.mem_append.mp hmem with h | h
      · exact hdisj y (List.mem_cons_of_mem x hy) h
      · rw [List.mem_singleton.mp h] at hy
        exact (List.nodup_cons.mp hnd).1 hy

theorem dedupAppend_nil_of_nodup {l : List String} (h : l.Nodup) :
    dedupAppend [] l = l := by
  rw [dedupAppend_of_disjoint h (fun x _ => List.not_mem_nil x),
    List.nil_append]

theorem dictSet_keys_mem (m : List (String × String)) (k v : String) :
    k ∈ (dictSet m k v).map Prod.fst := by
  rw [dictSet]
  by_cases hk : m.any (fun p => p.1 == k)
  · rw [if_pos hk]
    rcases List.any_eq_true.mp hk with ⟨p, hp, hpk⟩
    refine List.mem_map.mpr ⟨(k, v), ?_, rfl⟩
    refine List.mem_map.mpr ⟨p, hp, ?_⟩
    rw [if_pos (by simpa using hpk)]
  · rw [if_neg hk]
    simp

theorem dictSet_keys_mono {m : List (String × String)} {k v a : String}
    (h : a ∈ m.map Prod.fst) : a ∈ (dictSet m k v).map Prod.fst := by
  rw [dictSet]
  rcases List.mem_map.mp h with ⟨p, hp, hfst⟩
  by_cases hk : m.any (fun p => p.1 == k)
  · rw [if_pos hk]
    by_cases hpk : p.1 = k
    · refine List.mem_map.mpr ⟨(k, v), ?_, by rw [← hfst, hpk]⟩
      exact List.mem_map.mpr ⟨p, hp, by rw [if_pos hpk]⟩
    · refine List.mem_map.mpr ⟨p, ?_, hfst⟩
      exact List.mem_map.mpr ⟨p, hp, by rw [if_neg hpk]⟩
  · rw [if_neg hk]
    exact List.mem_map.mpr ⟨p, List.mem_append_left _ hp, hfst⟩

theorem dictSet_good {f : String → String} {m : List (String × String)}
    (hg : ∀ p ∈ m, p.2 = f p.1) (k : String) :
    ∀ p ∈ dictSet m k (f k), p.2 = f p.1 := by
  intro p hp
  rw [dictSet] at hp
  by_cases hk : m.any (fun q => q.1 == k)
  · rw [if_pos hk] at hp
    rcases List.mem_map.mp hp with ⟨q, hq, hqe⟩
    by_cases hqk : q.1 = k
    · rw [if_pos hqk] at hqe
      rw [← hqe]
    · rw [if_neg hqk] at hqe
      rw [← hqe]
      exact hg q hq
  · rw [if_neg hk] at hp
    rcases List.mem_append.mp hp with h | h
    · exact hg p h
    · rw [List.mem_singleton.mp h]

theorem dictSet_keys_nodup {m : List (String × String)} {k v : String}
    (h : (m.map Prod.fst).Nodup) :
    ((dictSet m k v).map Prod.fst).Nodup := by
  rw [dictSet]
  by_cases hk : m.any (fun p => p.1 == k)
  · rw [if_pos hk]
    have : (m.map (fun p => if p.1 = k then (k, v) else p)).map Prod.fst =
        m.map Prod.fst := by
      rw [List.map_map]
      refine List.map_congr_left (fun p _ => ?_)
      by_cases hpk : p.1 = k
      · simp [hpk]
      · simp [hpk]
    rw [this]
    exact h
  · rw [if_neg hk]
    rw [List.map_append]
    rw [List.nodup_append]
    refine ⟨h, by simp, ?_⟩
    intro a ha hak
    have hak2 : a = k := by simpa using hak
    subst hak2
    apply hk
    rcases List.mem_map.mp ha with ⟨p, hp, hfst⟩
    exact List.any_eq_true.mpr ⟨p, hp, by simp [hfst]⟩

theorem resolveLoop_snd_good :
    ∀ (ts : List String) (res : List String)
      {m : List (String × String)},
      (∀ p ∈ m, p.2 = resolveToken p.1) →
      ∀ p ∈ (resolveLoop ts res m).2, p.2 = resolveToken p.1
  | [], res, m, hg => hg
  | t :: ts, res, m, hg => by
    rw [resolveLoop]
    exact resolveLoop_snd_good ts _ (dictSet_good hg t)

theorem resolveLoop_snd_keys_nodup :
    ∀ (ts : List String) (res : List String)
      {m : List (String × String)},
      ((m.map Prod.fst).Nodup) →
      (((resolveLoop ts res m).2.map Prod.fst).Nodup)
  | [], res, m, h => h
  | t :: ts, res, m, h => by
    rw [resolveLoop]
    exact resolveLoop_snd_keys_nodup ts _ (dictSet_keys_nodup h)

theorem resolveLoop_snd_keys_mono :
    ∀ (ts : List String) (res : List String)
      {m : List (String × String)} {a : String},
      a ∈ m.map Prod.fst → a ∈ (resolveLoop ts res m).2.map Prod.fst
  | [], res, m, a, h => h
  | t :: ts, res, m, a, h => by
    rw [resolveLoop]
    exact resolveLoop_snd_keys_mono ts _ (dictSet_keys_mono h)

theorem resolveLoop_snd_keys_mem :
    ∀ {ts : List String} (res : List String)
      (m : List (String × String)) {t : String}, t ∈ ts →
      t ∈ (resolveLoop ts res m).2.map Prod.fst
  | t' :: ts, res, m, t, h => by
    rw [resolveLoop]
    rcases List.mem_cons.mp h with h | h
    · subst h
      exact resolveLoop_snd_keys_mono ts _ (dictSet_keys_mem m t _)
    · exact resolveLoop_snd_keys_mem _ _ h

theorem tokenize_joinCommas {ids : List String}
    (h : ∀ x ∈ ids, canonicalToken x) :
    tokenize (joinCommas ids) = ids := by
  cases ids with
  | nil => rfl
  | cons x xs =>
    rw [tokenize]
    have hdata : (joinCommas (x :: xs)).data =
        joinWithComma (x.data :: xs.map String.data) := rfl
    rw [hdata]
    rw [splitOnComma_join
      ((h x (List.mem_cons_self x xs)).2.2.1)
      (fun y hy => by
        rcases List.mem_map.mp hy with ⟨z, hz, rfl⟩
        exact (h z (List.mem_cons_of_mem x hz)).2.2.1)]
    have hmap : (x.data :: xs.map String.data).map
        (fun l => String.mk (pyStrip l)) = x :: xs := by
      have : (x.data :: xs.map String.data) =
          (x :: xs).map String.data := rfl
      rw [this, List.map_map]
      have hid : ∀ z ∈ x :: xs,
          ((fun l => String.mk (pyStrip l)) ∘ String.data) z = id z := by
        intro z hz
        show String.mk (pyStrip z.data) = z
        rw [(h z hz).2.2.2]
      calc List.map ((fun l => String.mk (pyStrip l)) ∘ String.data)
            (x :: xs)
          = List.map id (x :: xs) := List.map_congr_left hid
        _ = x :: xs := List.map_id _
    rw [hmap]
    rw [List.filter_eq_self.mpr]
    intro a ha
    exact decide_eq_true ((h a ha).2.1)

theorem resolve_ids_characterisation (raw : String) :
    (resolve_input_coins raw).1 =
      dedupAppend [] ((tokenize raw).map resolveToken) :=
  resolveLoop_fst _ _ _

theorem resolve_ids_nodup (raw : String) :
    (resolve_input_coins raw).1.Nodup := by
  rw [resolve_ids_characterisation]
  exact dedupAppend_nodup _ List.nodup_nil

theorem resolve_ids_canonical {raw : String} {x : String}
    (hx : x ∈ (resolve_input_coins raw).1) : canonicalToken x := by
  rw [resolve_ids_characterisation] at hx
  rcases mem_dedupAppend hx with h | h
  · exact absurd h (List.not_mem_nil x)
  · rcases List.mem_map.mp h with ⟨t, ht, rfl⟩
    exact resolveToken_canonical ht

theorem resolve_mapping_lookup {raw t : String} (ht : t ∈ tokenize raw) :
    List.lookup t (resolve_input_coins raw).2 = some (resolveToken t) :=
  lookup_eq_of_good (resolveLoop_snd_good _ _ (by simp))
    (resolveLoop_snd_keys_mem _ _ ht)

theorem resolve_join_fixed (raw : String) :
    (resolve_input_coins (joinCommas (resolve_input_coins raw).1)).1 =
      (resolve_input_coins raw).1 := by
  rw [resolve_input_coins]
  rw [tokenize_joinCommas (fun x hx => resolve_ids_canonical hx)]
  rw [resolveLoop_fst]
  rw [List.map_congr_left (fun x hx =>
    ((resolve_ids_canonical hx).1 : resolveToken x = id x))]
  rw [List.map_id']
  exact dedupAppend_nil_of_nodup (resolve_ids_nodup raw)

/-! ## Claims -/

/-- C1: for every current snapshot `S`, previous snapshot `P` and
identifier `id`, the per-identifier delta is undefined whenever `P[id]`
is undefined, `P[id]` is zero, or `S[id]` is undefined; in every other
case it equals `(S[id] - P[id]) / P[id]` exactly. -/
theorem delta_undefined_or_exact (S : PriceData) (P : PrevState)
    (id : String) :
    ((List.lookup id P = none ∨ List.lookup id P = some 0 ∨
        getUsd S id = none) →
      snapshotDelta S P id = none) ∧
    (∀ s p : ℚ, getUsd S id = some s → List.lookup id P = some p →
      p ≠ 0 → snapshotDelta S P id = some ((s - p) / p)) := by
  constructor
  · rintro (h | h | h) <;> rw [snapshotDelta, h]
    · cases getUsd S id <;> rfl
    · cases getUsd S id <;> simp [pctChange]
    · rfl
  · intro s p hs hp hne
    rw [snapshotDelta, hs, hp]
    simp [pctChange, hne]

/-- Witness for C1 at a concrete snapshot pair: defined case and
missing-previous case. -/
theorem delta_undefined_or_exact_w :
    snapshotDelta [("bitcoin", some 50000)] [("bitcoin", 40000)]
        "bitcoin" = some ((50000 - 40000) / 40000) ∧
    snapshotDelta [("bitcoin", some 50000)] [] "bitcoin" = none :=
  ⟨(delta_undefined_or_exact [("bitcoin", some 50000)]
        [("bitcoin", 40000)] "bitcoin").2 50000 40000 rfl rfl
      (by norm_num),
    (delta_undefined_or_exact [("bitcoin", some 50000)] [] "bitcoin").1
      (Or.inl rfl)⟩

/-- C2 (code bug): with `--no-color`, `main` rebinds `Style` to a
`_NoColor` object that has no `BRIGHT` attribute, so the
`except KeyboardInterrupt` handler's `Style.BRIGHT` raises
`AttributeError`: the interrupt does not produce the farewell message
and clean exit 0 the claim requires.  With colours enabled the handler
does exit cleanly with code 0 after the farewell. -/
theorem interrupt_noColor_crashes :
    onKeyboardInterrupt true = .uncaught "AttributeError" ∧
    onKeyboardInterrupt false = .exit 0 true := by
  constructor <;> rfl

/-- C3: a cycle whose fetch raises (a `requests.RequestException` or any
other exception) leaves the previous-snapshot state untouched, reports a
warning, and sleeps exactly the same clamped interval as a successful
looping cycle; the step never breaks or escapes on a failed cycle, and
carries no retry counter, so the fixed delay repeats indefinitely. -/
theorem failed_cycle_fixed_retry (cfg : Config) (prev : PrevState)
    (m : String) (data : PriceData) (ts : String)
    (h : cfg.once = false) :
    (runCycle cfg prev (.netError m)).newPrev = prev ∧
    (runCycle cfg prev (.unexpectedError m)).newPrev = prev ∧
    (runCycle cfg prev (.netError m)).warning.isSome = true ∧
    (runCycle cfg prev (.unexpectedError m)).warning.isSome = true ∧
    (runCycle cfg prev (.netError m)).control =
      .sleep (effInterval cfg) ∧
    (runCycle cfg prev (.unexpectedError m)).control =
      .sleep (effInterval cfg) ∧
    (runCycle cfg prev (.ok data ts)).control =
      .sleep (effInterval cfg) := by
  refine ⟨rfl, rfl, rfl, rfl, rfl, rfl, ?_⟩
  simp [runCycle, h]

/-- Witness for C3 at a concrete configuration and failed cycle. -/
theorem failed_cycle_fixed_retry_w :
    (runCycle
        { coins := ["bitcoin"], once := false, noColor := false,
          intervalArg := 30, csvPath := "crypto_prices.csv" }
        [("bitcoin", 40000)] (.netError "timeout")).newPrev =
      [("bitcoin", 40000)] ∧
    (runCycle
        { coins := ["bitcoin"], once := false, noColor := false,
          intervalArg := 30, csvPath := "crypto_prices.csv" }
        [("bitcoin", 40000)] (.unexpectedError "timeout")).newPrev =
      [("bitcoin", 40000)] ∧
    (runCycle
        { coins := ["bitcoin"], once := false, noColor := false,
          intervalArg := 30, csvPath := "crypto_prices.csv" }
        [("bitcoin", 40000)] (.netError "timeout")).warning.isSome =
      true ∧
    (runCycle
        { coins := ["bitcoin"], once := false, noColor := false,
          intervalArg := 30, csvPath := "crypto_prices.csv" }
        [("bitcoin", 40000)]
          (.unexpectedError "timeout")).warning.isSome = true ∧
    (runCycle
        { coins := ["bitcoin"], once := false, noColor := false,
          intervalArg := 30, csvPath := "crypto_prices.csv" }
        [("bitcoin", 40000)] (.netError "timeout")).control =
      .sleep (effInterval
        { coins := ["bitcoin"], once := false, noColor := false,
          intervalArg := 30, csvPath := "crypto_prices.csv" }) ∧
    (runCycle
        { coins := ["bitcoin"], once := false, noColor := false,
          intervalArg := 30, csvPath := "crypto_prices.csv" }
        [("bitcoin", 40000)] (.unexpectedError "timeout")).control =
      .sleep (effInterval
        { coins := ["bitcoin"], once := false, noColor := false,
          intervalArg := 30, csvPath := "crypto_prices.csv" }) ∧
    (runCycle
        { coins := ["bitcoin"], once := false, noColor := false,
          intervalArg := 30, csvPath := "crypto_prices.csv" }
        [("bitcoin", 40000)]
          (.ok [("bitcoin", some 50000)] "ts")).control =
      .sleep (effInterval
        { coins := ["bitcoin"], once := false, noColor := false,
          intervalArg := 30, csvPath := "crypto_prices.csv" }) :=
  failed_cycle_fixed_retry _ [("bitcoin", 40000)] "timeout"
    [("bitcoin", some 50000)] "ts" rfl

/-- C4 counterexample: in run-once mode the loop `break`s (source line
229) before the previous-state update (line 231), so the one successful
cycle does *not* replace the previous-snapshot state with the filtered
current snapshot: starting from the empty state with a defined current
price, the state stays empty instead of picking the price up. -/
theorem runOnce_skips_prev_update :
    (runCycle
        { coins := ["bitcoin"], once := true, noColor := false,
          intervalArg := 30, csvPath := "" }
        initPrevPrices
        (.ok [("bitcoin", some 50000)] "ts")).newPrev = [] ∧
    filterDefined (currentPrices ["bitcoin"] [("bitcoin", some 50000)]) =
      [("bitcoin", 50000)] ∧
    ([] : PrevState) ≠ [("bitcoin", (50000 : ℚ))] := by
  refine ⟨rfl, rfl, by simp⟩

/-- C4 (amended): the previous-snapshot state starts empty and, at the
end of every successful cycle that continues the loop (in run-once mode
the loop breaks before the update and the state is discarded), and only
then, is replaced wholesale by the current snapshot restricted to
identifiers with a defined price; an identifier whose current price is
missing is absent from the stored state. -/
theorem prev_state_replacement (cfg : Config) (prev : PrevState)
    (data : PriceData) (ts m : String) (c : String)
    (h : cfg.once = false) :
    initPrevPrices = [] ∧
    (runCycle cfg prev (.ok data ts)).newPrev =
      filterDefined (currentPrices cfg.coins data) ∧
    (runCycle cfg prev (.netError m)).newPrev = prev ∧
    (runCycle cfg prev (.unexpectedError m)).newPrev = prev ∧
    (getUsd data c = none →
      List.lookup c (runCycle cfg prev (.ok data ts)).newPrev = none) := by
  refine ⟨rfl, by simp [runCycle, h], rfl, rfl, fun hc => ?_⟩
  simp only [runCycle, h, if_false, Bool.false_eq_true]
  exact lookup_filterDefined_none cfg.coins data c hc

/-- Witness for C4's amended statement: a looping cycle whose snapshot
has one defined and one missing price keeps exactly the defined one. -/
theorem prev_state_replacement_w :
    initPrevPrices = [] ∧
    (runCycle
        { coins := ["bitcoin", "ethereum"], once := false,
          noColor := false, intervalArg := 30, csvPath := "" }
        [] (.ok [("bitcoin", some 50000)] "ts")).newPrev =
      filterDefined (currentPrices ["bitcoin", "ethereum"]
        [("bitcoin", some 50000)]) ∧
    (runCycle
        { coins := ["bitcoin", "ethereum"], once := false,
          noColor := false, intervalArg := 30, csvPath := "" }
        [] (.netError "boom")).newPrev = [] ∧
    (runCycle
        { coins := ["bitcoin", "ethereum"], once := false,
          noColor := false, intervalArg := 30, csvPath := "" }
        [] (.unexpectedError "boom")).newPrev = [] ∧
    (getUsd [("bitcoin", some 50000)] "ethereum" = none →
      List.lookup "ethereum"
        (runCycle
          { coins := ["bitcoin", "ethereum"], once := false,
            noColor := false, intervalArg := 30, csvPath := "" }
          [] (.ok [("bitcoin", some 50000)] "ts")).newPrev = none) :=
  prev_state_replacement _ [] [("bitcoin", some 50000)] "ts" "boom"
    "ethereum" rfl

/-- C6 counterexample: the scenario delta is `0.25`, but the rendered
change string is not the claimed `"+25.00%"`: the `%7.2f` field pads the
number to seven characters, giving `"+  25.00%"`. -/
theorem change_string_is_padded :
    pctChange (some 50000) (some 40000) = some (1 / 4) ∧
    format_pct (some (1 / 4)) ≠ "+25.00%" := by
  constructor
  · rw [pctChange]
    rw [if_pos (by norm_num : (40000 : ℚ) ≠ 0)]
    norm_num
  · rw [format_pct_quarter]
    decide

/-- C6 (amended): with current price 50000 and previous 40000 the delta
is `0.25`, the classification is `up`, and the rendered change string is
`"+  25.00%"` — the signed percent with two decimals inside a
seven-character right-aligned numeric field; in general a non-negative
delta renders as `"+"`, a seven-or-more character numeric body ending in
a decimal point and two digits, then `"%"`. -/
theorem change_scenario_up (d : ℚ) (hd : 0 ≤ d) :
    (pctChange (some 50000) (some 40000) = some (1 / 4) ∧
      classifyDisplay (some 50000) (some (1 / 4)) = .up ∧
      format_pct (some (1 / 4)) = "+  25.00%") ∧
    ∃ body : String, format_pct (some d) = "+" ++ body ++ "%" ∧
      7 ≤ body.length ∧
      ∃ t o : Char, t.isDigit ∧ o.isDigit ∧
        body.data.reverse.take 3 = [o, t, '.'] := by
  constructor
  · refine ⟨?_, ?_, format_pct_quarter⟩
    · rw [pctChange]
      rw [if_pos (by norm_num : (40000 : ℚ) ≠ 0)]
      norm_num
    · rw [classifyDisplay]
      simp only [if_pos (by norm_num : (1 : ℚ) / 4 > 0)]
  · refine ⟨padLeft 7 (fmtFixed2 (d * 100)), ?_, ?_, ?_⟩
    · rw [format_pct, if_pos hd]
    · rw [padLeft]
      rw [String.length_append]
      simp only [String.length]
      rw [List.length_replicate]
      omega
    · obtain ⟨pre, t, o, hdata, ht, ho⟩ := fmtFixed2_shape (d * 100)
      refine ⟨t, o, ht, ho, ?_⟩
      rw [padLeft, String.data_append, hdata]
      simp only [List.reverse_append, List.reverse_cons,
        List.reverse_nil, List.nil_append, List.cons_append,
        List.append_assoc]
      rfl

/-- Witness for C6's amended statement at `d = 1/4`. -/
theorem change_scenario_up_w :
    (pctChange (some 50000) (some 40000) = some (1 / 4) ∧
      classifyDisplay (some 50000) (some (1 / 4)) = .up ∧
      format_pct (some (1 / 4)) = "+  25.00%") ∧
    ∃ body : String, format_pct (some (1 / 4)) = "+" ++ body ++ "%" ∧
      7 ≤ body.length ∧
      ∃ t o : Char, t.isDigit ∧ o.isDigit ∧
        body.data.reverse.take 3 = [o, t, '.'] :=
  change_scenario_up (1 / 4) (by norm_num)

/-- C7: invoking the logger (header check plus row append, as `main`
does) twice against a non-existing path yields exactly one header row —
its columns following the tracked identifier order — followed by the two
data rows; the header is only written when the file does not exist, and
every append extends the existing rows without rewriting them. -/
theorem logger_header_once (path : String) (coins : List String)
    (p1 p2 : List (String × Option ℚ)) (t1 t2 : String)
    (h : path ≠ "") :
    append_prices_to_csv path coins p2 t2
        (append_prices_to_csv path coins p1 t1
          (ensure_csv_header path coins none)) =
      some [.header (csvHeaderCols coins),
            .data t1 (csvCells coins p1),
            .data t2 (csvCells coins p2)] ∧
    csvHeaderCols coins = "timestamp" :: coins.map (fun c => c ++ "_usd") ∧
    (∀ rows, ensure_csv_header path coins (some rows) = some rows) ∧
    (∀ fs p t, append_prices_to_csv path coins p t fs =
      some (fs.getD [] ++ [.data t (csvCells coins p)])) := by
  refine ⟨?_, rfl, fun rows => ?_, fun fs p t => ?_⟩ <;>
    simp [ensure_csv_header, append_prices_to_csv, h]

/-- Witness for C7 at the default CSV path and a two-coin list. -/
theorem logger_header_once_w :
    append_prices_to_csv "crypto_prices.csv" ["bitcoin", "ethereum"]
        [("bitcoin", some 2), ("ethereum", none)] "t2"
        (append_prices_to_csv "crypto_prices.csv"
          ["bitcoin", "ethereum"] [("bitcoin", some 1)] "t1"
          (ensure_csv_header "crypto_prices.csv" ["bitcoin", "ethereum"]
            none)) =
      some [.header (csvHeaderCols ["bitcoin", "ethereum"]),
            .data "t1" (csvCells ["bitcoin", "ethereum"]
              [("bitcoin", some 1)]),
            .data "t2" (csvCells ["bitcoin", "ethereum"]
              [("bitcoin", some 2), ("ethereum", none)])] ∧
    csvHeaderCols ["bitcoin", "ethereum"] =
      "timestamp" :: ["bitcoin", "ethereum"].map (fun c => c ++ "_usd") ∧
    (∀ rows, ensure_csv_header "crypto_prices.csv"
      ["bitcoin", "ethereum"] (some rows) = some rows) ∧
    (∀ fs p t, append_prices_to_csv "crypto_prices.csv"
        ["bitcoin", "ethereum"] p t fs =
      some (fs.getD [] ++
        [.data t (csvCells ["bitcoin", "ethereum"] p)])) :=
  logger_header_once "crypto_prices.csv" ["bitcoin", "ethereum"]
    [("bitcoin", some 1)] [("bitcoin", some 2), ("ethereum", none)]
    "t1" "t2" (by decide)

/-- C8: when no identifiers resolve from the input, `main` reports the
error and exits with status 1 without entering the loop; when at least
one resolves, the loop is entered with exactly the resolved list — no
default is substituted. -/
theorem zero_coins_fatal (raw : String) :
    ((resolve_input_coins raw).1 = [] →
      mainStartup raw = .exitWith 1 true) ∧
    ((resolve_input_coins raw).1 ≠ [] →
      mainStartup raw = .enterLoop (resolve_input_coins raw).1
        (resolve_input_coins raw).2) := by
  constructor
  · intro h
    rw [mainStartup]
    simp only [h, if_pos]
  · intro h
    rw [mainStartup]
    simp only [if_neg h]

/-- Witness for C8: the input `" , "` yields zero tokens and the
process exits with status 1. -/
theorem zero_coins_fatal_w : mainStartup " , " = .exitWith 1 true :=
  (zero_coins_fatal " , ").1 (by decide)

/-- C10: a cycle whose fetch raises appends nothing to the CSV log and
leaves the previous-snapshot state exactly as it was. -/
theorem failed_cycle_leaves_log (cfg : Config) (prev : PrevState)
    (m₁ m₂ : String) :
    (runCycle cfg prev (.netError m₁)).csvWrite = none ∧
    (runCycle cfg prev (.netError m₁)).newPrev = prev ∧
    (runCycle cfg prev (.unexpectedError m₂)).csvWrite = none ∧
    (runCycle cfg prev (.unexpectedError m₂)).newPrev = prev :=
  ⟨rfl, rfl, rfl, rfl⟩

/-- C5: each whitespace-trimmed non-empty token of the comma-separated
input resolves through uppercase table lookup with lowercase fallback;
the identifier list is the first-seen-order deduplication of the
per-token resolutions while the mapping answers every token; and
`"BTC,ETH,nonexistent-token"` resolves to
`["bitcoin", "ethereum", "nonexistent-token"]` with the mapping
`BTC → bitcoin, ETH → ethereum,
nonexistent-token → nonexistent-token`. -/
theorem resolve_scenario (raw : String) :
    resolve_input_coins "BTC,ETH,nonexistent-token" =
      (["bitcoin", "ethereum", "nonexistent-token"],
       [("BTC", "bitcoin"), ("ETH", "ethereum"),
        ("nonexistent-token", "nonexistent-token")]) ∧
    (resolve_input_coins raw).1 =
      dedupAppend [] ((tokenize raw).map resolveToken) ∧
    ∀ t ∈ tokenize raw,
      List.lookup t (resolve_input_coins raw).2 =
        some (resolveToken t) :=
  ⟨by decide, resolve_ids_characterisation raw,
    fun _ ht => resolve_mapping_lookup ht⟩

/-- Witness for C5: the scenario input, with the mapping queried at the
concrete token `"BTC"`. -/
theorem resolve_scenario_w :
    resolve_input_coins "BTC,ETH,nonexistent-token" =
      (["bitcoin", "ethereum", "nonexistent-token"],
       [("BTC", "bitcoin"), ("ETH", "ethereum"),
        ("nonexistent-token", "nonexistent-token")]) ∧
    List.lookup "BTC"
        (resolve_input_coins "BTC,ETH,nonexistent-token").2 =
      some (resolveToken "BTC") :=
  ⟨(resolve_scenario "BTC,ETH,nonexistent-token").1,
    (resolve_scenario "BTC,ETH,nonexistent-token").2.2 "BTC" (by decide)⟩

/-- C9: re-resolving the comma-joined identifier output returns the
same ordered duplicate-free identifier list, and every distinct
original token appears exactly once as a key of the returned mapping
(the key list is duplicate-free and contains every token). -/
theorem resolve_idempotent (raw : String) :
    (resolve_input_coins
        (joinCommas (resolve_input_coins raw).1)).1 =
      (resolve_input_coins raw).1 ∧
    (resolve_input_coins raw).1.Nodup ∧
    ((resolve_input_coins raw).2.map Prod.fst).Nodup ∧
    ∀ t ∈ tokenize raw,
      t ∈ (resolve_input_coins raw).2.map Prod.fst :=
  ⟨resolve_join_fixed raw, resolve_ids_nodup raw,
    resolveLoop_snd_keys_nodup _ _ (by simp),
    fun _ ht => resolveLoop_snd_keys_mem _ _ ht⟩

/-- Witness for C9 at a concrete input with duplicate-resolving tokens
(`BTC`, `btc` and `bitcoin` all resolve to `bitcoin`). -/
theorem resolve_idempotent_w :
    (resolve_input_coins
        (joinCommas
          (resolve_input_coins "BTC,btc,bitcoin,DOGE").1)).1 =
      (resolve_input_coins "BTC,btc,bitcoin,DOGE").1 ∧
    "btc" ∈ (resolve_input_coins "BTC,btc,bitcoin,DOGE").2.map
      Prod.fst :=
  ⟨(resolve_idempotent "BTC,btc,bitcoin,DOGE").1,
    (resolve_idempotent "BTC,btc,bitcoin,DOGE").2.2.2 "btc" (by decide)⟩

end CryptoTracker
